import Mathlib

/-!
Verification of the trigger-selection and poisoning-evaluation engine of the
malware-backdoor repository.  The Python sources are shallowly embedded:
numeric feature values become `Rat`, numpy row vectors become functions
`Nat → Rat` or lists, counting loops become folds over zipped lists.
External numerical collaborators (sklearn's IsolationForest, LAPACK's SVD,
the trained models' predictions) are modelled as oracle inputs: the embedded
functions receive the vectors those collaborators would produce.
-/

namespace MwBackdoor

/-! ## Per-sample outcome classification (attack_utils.run_watermark_attack)

The loop at attack_utils.py lines 791-802 classifies each poisoned-malicious
test sample by the pair (original-model prediction, poisoned-model
prediction), both already thresholded at 0.5 into a 0/1 decision.  We embed
the decisions as `Bool` (`true` = detected as malware). -/

/-- One step of the classification loop: accumulator is
(successes, failures, benign_in_both_models).
`p.1` is the original model's decision, `p.2` the poisoned model's decision. -/
def classify_step (acc : Nat × Nat × Nat) (p : Bool × Bool) : Nat × Nat × Nat :=
  if p.1 = false ∧ p.2 = true then (acc.1, acc.2.1 + 1, acc.2.2)
  else if p.1 = true ∧ p.2 = false then (acc.1 + 1, acc.2.1, acc.2.2)
  else if p.2 = false then (acc.1, acc.2.1, acc.2.2 + 1)
  else acc

/-- The classification loop of `run_watermark_attack`
(attack_utils.py lines 791-802): folds `classify_step` over the paired
predictions, starting from zero counts.  Returns
(successes, failures, benign_in_both_models). -/
def classify_predictions (orig new : List Bool) : Nat × Nat × Nat :=
  (orig.zip new).foldl classify_step (0, 0, 0)

/-- Count of samples detected by both the original and the poisoned model. -/
def detected_in_both (orig new : List Bool) : Nat :=
  (orig.zip new).countP (fun p => p.1 && p.2)

theorem classify_foldl (l : List (Bool × Bool)) (a b c : Nat) :
    l.foldl classify_step (a, b, c) =
      (a + (l.countP fun p => p.1 && !p.2),
       b + (l.countP fun p => !p.1 && p.2),
       c + (l.countP fun p => !p.1 && !p.2)) := by
  induction l generalizing a b c with
  | nil => simp
  | cons hd tl ih =>
      rcases hd with ⟨o, n⟩
      cases o <;> cases n <;>
        simp [classify_step, List.countP_cons, ih, Nat.add_assoc, Nat.add_comm,
          Nat.add_left_comm]

/-- C1 counterexample: with a single poisoned-malicious sample that both the
clean and the poisoned model detect, the classification loop counts it in no
bucket, so successes + failures + benign_in_both = 0 ≠ 1 = subset size.  The
claim "successes + failures + benign_in_both equals num_mw_to_watermark" is
therefore false as stated. -/
theorem C1_sum_counterexample :
    (classify_predictions [true] [true]).1 + (classify_predictions [true] [true]).2.1 +
      (classify_predictions [true] [true]).2.2 ≠ ([true] : List Bool).length := by
  decide

/-- C1 (amended): for every experiment iteration, the per-sample outcome
classification over the poisoned-malicious test subset satisfies
successes + failures + benign_in_both + (samples detected by both models)
= num_mw_to_watermark, the size of that subset; the loop at
attack_utils.py:790-802 leaves samples detected by both models uncounted. -/
theorem C1_sum_with_detected_in_both (orig new : List Bool)
    (hlen : orig.length = new.length) :
    (classify_predictions orig new).1 + (classify_predictions orig new).2.1 +
      (classify_predictions orig new).2.2 + detected_in_both orig new =
      orig.length := by
  unfold classify_predictions detected_in_both
  rw [classify_foldl]
  have hzip : (orig.zip new).length = orig.length := by
    rw [List.length_zip, hlen, Nat.min_self]
  rw [← hzip]
  induction orig.zip new with
  | nil => simp
  | cons hd tl ih =>
      rcases hd with ⟨o, n⟩
      cases o <;> cases n <;>
        simp_all [List.countP_cons] <;> omega

/-- Witness for C1: concrete evaluation of the amended sum identity on a
one-element prediction pair where both models detect the sample. -/
theorem C1_sum_with_detected_in_both_witness :
    (classify_predictions [true] [true]).1 + (classify_predictions [true] [true]).2.1 +
      (classify_predictions [true] [true]).2.2 + detected_in_both [true] [true] =
      ([true] : List Bool).length :=
  C1_sum_with_detected_in_both [true] [true] (by decide)

/-! ## Defense evaluation counts (defense_isoforest.isolation_forest_analysis)

The IsolationForest itself is an external sklearn collaborator; its
`fit_predict` output (−1 = outlier, 1 = inlier) enters the embedding as the
oracle vector `pred`.  `is_clean` is the poison-membership vector
(1.0 = untouched, 0.0 = poisoned), a float array in the source, embedded as
`List Rat`.  The counting loop at defense_isoforest.py lines 30-43 is
embedded as a fold over the zipped vectors. -/

/-- One step of the counting loop of `isolation_forest_analysis`:
accumulator is (suspect, poison_found, false_positives_poison); `p.1` is the
detector's prediction for the sample, `p.2` its is_clean entry.  The `elif`
of the source makes the false-positive branch reachable only when the
poison-found branch did not fire. -/
def isoforest_count_step (acc : Nat × Nat × Nat) (p : Int × Rat) : Nat × Nat × Nat :=
  let acc := if p.1 = -1 then (acc.1 + 1, acc.2.1, acc.2.2) else acc
  if p.2 = 0 ∧ p.1 = -1 then (acc.1, acc.2.1 + 1, acc.2.2)
  else if p.1 = -1 ∧ p.2 = 1 then (acc.1, acc.2.1, acc.2.2 + 1)
  else acc

/-- The counting loop of `isolation_forest_analysis`
(defense_isoforest.py lines 30-43): returns
(suspect, poison_found, false_positives_poison). -/
def isolation_forest_counts (pred : List Int) (is_clean : List Rat) : Nat × Nat × Nat :=
  (pred.zip is_clean).foldl isoforest_count_step (0, 0, 0)

theorem isoforest_foldl (l : List (Int × Rat)) (a b c : Nat) :
    l.foldl isoforest_count_step (a, b, c) =
      (a + (l.countP fun p => p.1 == -1),
       b + (l.countP fun p => decide (p.2 = 0) && decide (p.1 = -1)),
       c + (l.countP fun p => decide (p.1 = -1) && decide (p.2 = 1) && !decide (p.2 = 0))) := by
  induction l generalizing a b c with
  | nil => simp
  | cons hd tl ih =>
      rcases hd with ⟨pr, cl⟩
      by_cases h1 : pr = -1 <;> by_cases h2 : cl = 0 <;> by_cases h3 : cl = 1 <;>
        simp [isoforest_count_step, List.countP_cons, ih, h1, h2, h3,
          Nat.add_assoc, Nat.add_comm, Nat.add_left_comm]

/-- C9: for every outlier-flag vector and every aligned poison-membership
vector, the defense evaluation counts as found (poison_found) exactly the
samples that are flagged (prediction −1) and ground-truth-poisoned
(is_clean = 0), and as removed (false_positives_poison) exactly the flagged
clean samples (is_clean = 1). -/
theorem C9_found_and_removed_counts (pred : List Int) (is_clean : List Rat)
    (hlen : pred.length = is_clean.length) :
    (isolation_forest_counts pred is_clean).2.1 =
      ((pred.zip is_clean).countP fun p => decide (p.1 = -1) && decide (p.2 = 0)) ∧
    (isolation_forest_counts pred is_clean).2.2 =
      ((pred.zip is_clean).countP fun p => decide (p.1 = -1) && decide (p.2 = 1)) := by
  have _hzip : (pred.zip is_clean).length = pred.length := by
    rw [List.length_zip, hlen, Nat.min_self]
  unfold isolation_forest_counts
  rw [isoforest_foldl]
  constructor
  · simp only [Nat.zero_add]
    exact List.countP_congr fun p _ => by
      by_cases h1 : p.1 = -1 <;> by_cases h2 : p.2 = 0 <;> simp [h1, h2]
  · simp only [Nat.zero_add]
    exact List.countP_congr fun p _ => by
      by_cases h1 : p.1 = -1 <;> by_cases h2 : p.2 = 1 <;> simp [h1, h2]

/-- The concrete C9 scenario: 100 training rows, the last 10 poisoned
(is_clean = 0), and a detector flagging exactly those 10 plus the first 2
clean rows. -/
def c9_pred : List Int := -1 :: -1 :: (List.replicate 88 1 ++ List.replicate 10 (-1))

/-- The poison-membership vector of the concrete C9 scenario. -/
def c9_is_clean : List Rat := List.replicate 90 1 ++ List.replicate 10 0

/-- Witness for C9: on the 100-row scenario with 10 poisoned rows all flagged
plus 2 clean rows flagged, found = 10 and removed = 2. -/
theorem C9_found_and_removed_counts_witness :
    (isolation_forest_counts c9_pred c9_is_clean).2.1 = 10 ∧
    (isolation_forest_counts c9_pred c9_is_clean).2.2 = 2 := by
  have h := C9_found_and_removed_counts c9_pred c9_is_clean (by decide)
  exact ⟨h.1.trans (by decide), h.2.trans (by decide)⟩

theorem countP_flag_partition (l : List (Int × Rat))
    (hbin : ∀ p ∈ l, p.2 = 0 ∨ p.2 = 1) :
    (l.countP fun p => p.1 == -1) =
      (l.countP fun p => decide (p.2 = 0) && decide (p.1 = -1)) +
      (l.countP fun p =>
        decide (p.1 = -1) && decide (p.2 = 1) && !decide (p.2 = 0)) := by
  induction l with
  | nil => simp
  | cons hd tl ih =>
      have hhd := hbin hd (List.mem_cons_self hd tl)
      have htl := ih fun p hp => hbin p (List.mem_cons_of_mem hd hp)
      by_cases h1 : hd.1 = -1 <;> rcases hhd with h2 | h2 <;>
        simp [List.countP_cons, h1, h2, htl, Nat.add_assoc, Nat.add_comm,
          Nat.add_left_comm]

/-- C10: for every outlier-flag vector and every aligned 0/1
poison-membership vector, suspect = poison_found + false_positives_poison:
each flagged sample lands in exactly one of the two ground-truth buckets. -/
theorem C10_suspect_partition (pred : List Int) (is_clean : List Rat)
    (hlen : pred.length = is_clean.length)
    (hbin : ∀ x ∈ is_clean, x = 0 ∨ x = 1) :
    (isolation_forest_counts pred is_clean).1 =
      (isolation_forest_counts pred is_clean).2.1 +
      (isolation_forest_counts pred is_clean).2.2 := by
  have _hzip : (pred.zip is_clean).length = pred.length := by
    rw [List.length_zip, hlen, Nat.min_self]
  unfold isolation_forest_counts
  rw [isoforest_foldl]
  simp only [Nat.zero_add]
  exact countP_flag_partition (pred.zip is_clean)
    fun p hp => hbin p.2 (List.of_mem_zip hp).2

/-- Witness for C10: concrete evaluation of the suspect-count partition on
the 100-row scenario of C9's data. -/
theorem C10_suspect_partition_witness :
    (isolation_forest_counts c9_pred c9_is_clean).1 =
      (isolation_forest_counts c9_pred c9_is_clean).2.1 +
      (isolation_forest_counts c9_pred c9_is_clean).2.2 :=
  C10_suspect_partition c9_pred c9_is_clean (by decide) (by decide)

/-! ## Sample Mutator (attack_utils.watermark_one_sample and friends)

A dense feature-vector sample (the ember / drebin-991 branch of
`watermark_one_sample`) is embedded as a total valuation `Nat → Rat` of the
feature positions; `feature_names.index(name)` becomes `List.indexOf`, and
the in-place assignment `x[i] = v` becomes `Function.update`.  A trigger
(watermark) is an association list of feature-name/value pairs, the
embedding of the Python dict in its insertion order. -/

/-- A dense sample: a valuation of feature positions. -/
abbrev Sample := Nat → Rat

/-- The dense branch of `watermark_one_sample`
(attack_utils.py lines 209-213): sets every trigger feature of the sample to
its target value, in trigger order, and returns the resulting sample. -/
def watermark_one_sample (wm : List (String × Rat)) (feature_names : List String)
    (x : Sample) : Sample :=
  wm.foldl (fun s p => Function.update s (List.indexOf p.1 feature_names) p.2) x

/-- `is_watermarked_sample` (attack_utils.py lines 227-233): true iff every
trigger feature of the sample holds exactly its target value.  The source
compares with plain `!=`, i.e. exact equality. -/
def is_watermarked_sample (wm : List (String × Rat)) (feature_names : List String)
    (x : Sample) : Bool :=
  wm.all fun p => decide (x (List.indexOf p.1 feature_names) = p.2)

/-- `num_watermarked_samples` (attack_utils.py lines 236-237): Python's
`sum` over the booleans is the count of watermarked samples. -/
def num_watermarked_samples (wm : List (String × Rat)) (feature_names : List String)
    (X : List Sample) : Nat :=
  X.countP (is_watermarked_sample wm feature_names)

theorem watermark_preserves_other (wm : List (String × Rat))
    (feature_names : List String) (x : Sample) (j : Nat)
    (hj : ∀ p ∈ wm, List.indexOf p.1 feature_names ≠ j) :
    watermark_one_sample wm feature_names x j = x j := by
  induction wm generalizing x with
  | nil => rfl
  | cons q wm ih =>
      have hq := hj q (List.mem_cons_self q wm)
      have step : watermark_one_sample (q :: wm) feature_names x =
          watermark_one_sample wm feature_names
            (Function.update x (List.indexOf q.1 feature_names) q.2) := rfl
      rw [step, ih _ fun p hp => hj p (List.mem_cons_of_mem q hp)]
      exact Function.update_noteq (Ne.symm hq) q.2 x

theorem watermark_sets_value (wm : List (String × Rat))
    (feature_names : List String)
    (hmem : ∀ p ∈ wm, p.1 ∈ feature_names)
    (hnd : (wm.map Prod.fst).Nodup) (x : Sample) :
    ∀ p ∈ wm, watermark_one_sample wm feature_names x
      (List.indexOf p.1 feature_names) = p.2 := by
  induction wm generalizing x with
  | nil => intro p hp; cases hp
  | cons q wm ih =>
      intro p hp
      have hmemq : q.1 ∈ feature_names := hmem q (List.mem_cons_self q wm)
      have hndtl : (wm.map Prod.fst).Nodup := (List.nodup_cons.mp hnd).2
      have hqnot : q.1 ∉ wm.map Prod.fst := (List.nodup_cons.mp hnd).1
      have step : watermark_one_sample (q :: wm) feature_names x =
          watermark_one_sample wm feature_names
            (Function.update x (List.indexOf q.1 feature_names) q.2) := rfl
      rcases List.mem_cons.mp hp with rfl | hptl
      · rw [step, watermark_preserves_other]
        · exact Function.update_same _ _ _
        · intro r hr hcontra
          have hrmem : r.1 ∈ feature_names :=
            hmem r (List.mem_cons_of_mem p hr)
          have : r.1 = p.1 := (List.indexOf_inj hrmem hmemq).mp hcontra
          exact hqnot (this ▸ List.mem_map_of_mem Prod.fst hr)
      · rw [step]
        exact ih (fun r hr => hmem r (List.mem_cons_of_mem q hr)) hndtl _ p hptl

/-- C3: for every trigger with distinct feature names all present in the
feature-name list, applying the trigger with `watermark_one_sample` yields a
sample on which `is_watermarked_sample` is true; consequently, applying it
to every member of a batch makes `num_watermarked_samples` equal the batch
size. -/
theorem C3_apply_then_watermarked (wm : List (String × Rat))
    (feature_names : List String)
    (hmem : ∀ p ∈ wm, p.1 ∈ feature_names)
    (hnd : (wm.map Prod.fst).Nodup) :
    (∀ x : Sample,
      is_watermarked_sample wm feature_names
        (watermark_one_sample wm feature_names x) = true) ∧
    (∀ B : List Sample,
      num_watermarked_samples wm feature_names
        (B.map (watermark_one_sample wm feature_names)) = B.length) := by
  have hone : ∀ x : Sample,
      is_watermarked_sample wm feature_names
        (watermark_one_sample wm feature_names x) = true := by
    intro x
    unfold is_watermarked_sample
    rw [List.all_eq_true]
    intro p hp
    exact decide_eq_true (watermark_sets_value wm feature_names hmem hnd x p hp)
  refine ⟨hone, fun B => ?_⟩
  unfold num_watermarked_samples
  rw [List.countP_map]
  rw [List.countP_eq_length]
  intro x _
  exact hone x

/-- Witness for C3: a two-feature trigger applied to a concrete sample is
detected as watermarked, and a two-sample batch is fully counted. -/
theorem C3_apply_then_watermarked_witness :
    (is_watermarked_sample [("a", 5), ("b", 7)] ["a", "b"]
      (watermark_one_sample [("a", 5), ("b", 7)] ["a", "b"] fun _ => 0) = true) ∧
    (num_watermarked_samples [("a", 5), ("b", 7)] ["a", "b"]
      ([fun _ => 0, fun _ => 3].map
        (watermark_one_sample [("a", 5), ("b", 7)] ["a", "b"])) = 2) := by
  have h := C3_apply_then_watermarked [("a", 5), ("b", 7)] ["a", "b"]
    (by decide) (by simp)
  exact ⟨h.1 _, h.2 _⟩

/-- The comparison the spec describes for floating-point features: equality
up to an absolute tolerance, instantiated with numpy's default absolute
tolerance 1e-8 (`np.isclose`); any positive tolerance refutes the claim the
same way at a suitably small offset.  Written from the spec's words for
comparison against the implementation, which compares with plain `!=`. -/
def is_watermarked_sample_tol (wm : List (String × Rat))
    (feature_names : List String) (x : Sample) : Bool :=
  wm.all fun p =>
    decide (|x (List.indexOf p.1 feature_names) - p.2| ≤ 1 / 100000000)

/-- A sample whose trigger feature differs from the target value 1 by 1e-10,
far inside any reasonable floating-point tolerance. -/
def c8_sample : Sample := fun _ => 1 + 1 / 10000000000

/-- C8 counterexample: on a sample whose feature sits within floating-point
tolerance of the target value (offset 1e-10), `is_watermarked_sample`
returns false while the tolerance-based comparison the spec describes
returns true: the source uses exact comparison for every feature, never a
tolerance. -/
theorem C8_tolerance_counterexample :
    is_watermarked_sample [("f", 1)] ["f"] c8_sample = false ∧
    is_watermarked_sample_tol [("f", 1)] ["f"] c8_sample = true := by
  have h1 : (1 + 1 / 10000000000 : Rat) ≠ 1 := by norm_num
  have h2 : |(1 + 1 / 10000000000 : Rat) - 1| ≤ 1 / 100000000 := by
    rw [abs_of_nonneg] <;> norm_num
  constructor
  · simp [is_watermarked_sample, c8_sample, h1]
  · simp only [is_watermarked_sample_tol, c8_sample, List.all_cons, List.all_nil,
      Bool.and_true, decide_eq_true_eq]
    exact h2

/-- C8 (amended): for every trigger whose features appear in the
feature-name list and every sample, `is_watermarked_sample` returns true iff
every trigger feature on the sample equals its target value under exact
equality — for discrete and floating-point features alike; no
tolerance-based comparison is used. -/
theorem C8_exact_equality_iff (wm : List (String × Rat))
    (feature_names : List String) (x : Sample)
    (_hmem : ∀ p ∈ wm, p.1 ∈ feature_names) :
    is_watermarked_sample wm feature_names x = true ↔
      ∀ p ∈ wm, x (List.indexOf p.1 feature_names) = p.2 := by
  unfold is_watermarked_sample
  rw [List.all_eq_true]
  constructor
  · intro h p hp
    exact of_decide_eq_true (h p hp)
  · intro h p hp
    exact decide_eq_true (h p hp)

/-- Witness for C8: the amended exact-equality characterization evaluated on
a concrete one-feature trigger and a matching sample. -/
theorem C8_exact_equality_iff_witness :
    is_watermarked_sample [("f", 1)] ["f"] (fun _ => 1) = true :=
  (C8_exact_equality_iff [("f", 1)] ["f"] (fun _ => 1) (by decide)).mpr
    (by decide)

/-! ## Poisoned training-set reassembly (attack_utils.run_watermark_attack)

Lines 640-720 of attack_utils.py: the clean training rows are split by
label (`X_train[y_train == 0]` / `== 1]`, boolean-mask selections), the
drawn benign rows are removed with `np.delete` and selected with fancy
indexing, and the poisoned set is reassembled as
malicious ++ benign-not-drawn ++ mutated-drawn-benign.  Rows are embedded
polymorphically (row counting is independent of the row representation). -/

/-- Boolean-mask row selection `X[y == lbl]`. -/
def rowsWithLabel {α : Type} (X : List α) (y : List Nat) (lbl : Nat) : List α :=
  ((X.zip y).filter fun p => p.2 == lbl).map Prod.fst

/-- `np.delete(X, idxs, axis=0)`: drop the rows at the given indices. -/
def deleteRows {α : Type} (X : List α) (idxs : List Nat) : List α :=
  (X.enum.filter fun p => !(idxs.contains p.1)).map Prod.snd

/-- Fancy indexing `X[idxs]`: pick the rows at the given indices. -/
def selectRows {α : Type} (X : List α) (idxs : List Nat) : List α :=
  idxs.filterMap fun i => X.get? i

/-- The poisoned-training-set reassembly of `run_watermark_attack`
(attack_utils.py lines 711-716): (all malicious-train rows) ++
(benign-train rows not drawn) ++ (mutated drawn benign-train rows), and the
same reassembly for the label vector (whose own rows are its entries). -/
def poisoned_training_set {α : Type} (X : List α) (y : List Nat)
    (idxs : List Nat) (mutate : α → α) : List α × List Nat :=
  let Xgw := rowsWithLabel X y 0
  let ygw := rowsWithLabel y y 0
  let Xmw := rowsWithLabel X y 1
  let ymw := rowsWithLabel y y 1
  let Xno := deleteRows Xgw idxs
  let yno := deleteRows ygw idxs
  let Xwm := (selectRows Xgw idxs).map mutate
  let ywm := selectRows ygw idxs
  (Xmw ++ Xno ++ Xwm, ymw ++ yno ++ ywm)

theorem length_rowsWithLabel {α : Type} (X : List α) (y : List Nat) (lbl : Nat) :
    (rowsWithLabel X y lbl).length = (X.zip y).countP fun p => p.2 == lbl := by
  simp [rowsWithLabel, List.countP_eq_length_filter]

theorem countP_zip_snd {α : Type} (X : List α) (y : List Nat) (lbl : Nat)
    (hlen : y.length = X.length) :
    ((X.zip y).countP fun p => p.2 == lbl) = y.countP (· == lbl) := by
  induction X generalizing y with
  | nil => cases y <;> simp_all
  | cons a X ih =>
      cases y with
      | nil => simp_all
      | cons b y =>
          simp only [List.zip_cons_cons, List.countP_cons]
          rw [ih y (by simpa using hlen)]

theorem countP_binary_partition (y : List Nat) (hbin : ∀ l ∈ y, l = 0 ∨ l = 1) :
    y.countP (· == 0) + y.countP (· == 1) = y.length := by
  induction y with
  | nil => simp
  | cons a y ih =>
      have ha := hbin a (List.mem_cons_self a y)
      have ht := ih fun l hl => hbin l (List.mem_cons_of_mem a hl)
      rcases ha with rfl | rfl <;>
        simp [List.countP_cons, ← ht, Nat.add_assoc, Nat.add_comm, Nat.add_left_comm]

theorem length_deleteRows {α : Type} (X : List α) (idxs : List Nat)
    (hnd : idxs.Nodup) (hb : ∀ i ∈ idxs, i < X.length) :
    (deleteRows X idxs).length = X.length - idxs.length := by
  have hperm : List.Perm ((List.range X.length).filter fun i => idxs.contains i) idxs := by
    refine List.Subperm.antisymm ?_ ?_
    · refine ((List.nodup_range X.length).filter _).subperm ?_
      intro i hi
      have := List.of_mem_filter hi
      simpa using this
    · refine hnd.subperm ?_
      intro i hi
      refine List.mem_filter.mpr ⟨List.mem_range.mpr (hb i hi), by simpa using hi⟩
  have hcount : (X.enum.countP fun p => idxs.contains p.1) = idxs.length := by
    have h1 : (X.enum.countP fun p => idxs.contains p.1) =
        ((X.enum.map Prod.fst).countP fun i => idxs.contains i) := by
      rw [List.countP_map]
      rfl
    rw [h1, List.enum_map_fst, List.countP_eq_length_filter, hperm.length_eq]
  have hlen : X.enum.length = X.length := List.enum_length
  have hnot : (deleteRows X idxs).length =
      X.enum.countP fun p => !(idxs.contains p.1) := by
    simp [deleteRows, List.countP_eq_length_filter]
  have hsplit : X.enum.length =
      (X.enum.countP fun p => idxs.contains p.1) +
      (X.enum.countP fun p => !(idxs.contains p.1)) := by
    rw [List.length_eq_countP_add_countP (fun p : Nat × α => idxs.contains p.1) X.enum]
    congr 1
    refine List.countP_congr fun p _ => ?_
    by_cases h : idxs.contains p.1 <;> simp [h]
  rw [hnot]
  omega

theorem length_selectRows {α : Type} (X : List α) (idxs : List Nat)
    (hb : ∀ i ∈ idxs, i < X.length) :
    (selectRows X idxs).length = idxs.length := by
  induction idxs with
  | nil => rfl
  | cons i rest ih =>
      have hi : i < X.length := hb i (List.mem_cons_self i rest)
      have ht := ih fun j hj => hb j (List.mem_cons_of_mem i hj)
      simp only [selectRows, List.filterMap_cons, List.get?_eq_get hi] at *
      simpa using ht

/-- C4: for every clean training set with binary labels and every draw of
distinct in-range benign indices, the poisoned training set reassembled as
(all malicious-train rows) ++ (benign-train rows not drawn) ++ (mutated
drawn benign-train rows) has exactly as many rows as the clean training
set, and likewise for the label vector. -/
theorem C4_poisoned_training_set_size {α : Type} (X : List α) (y : List Nat)
    (idxs : List Nat) (mutate : α → α)
    (hlen : y.length = X.length)
    (hbin : ∀ l ∈ y, l = 0 ∨ l = 1)
    (hnd : idxs.Nodup)
    (hb : ∀ i ∈ idxs, i < (rowsWithLabel X y 0).length) :
    (poisoned_training_set X y idxs mutate).1.length = X.length ∧
    (poisoned_training_set X y idxs mutate).2.length = y.length := by
  have hXgw : (rowsWithLabel X y 0).length = y.countP (· == 0) := by
    rw [length_rowsWithLabel, countP_zip_snd _ _ _ hlen]
  have hXmw : (rowsWithLabel X y 1).length = y.countP (· == 1) := by
    rw [length_rowsWithLabel, countP_zip_snd _ _ _ hlen]
  have hygw : (rowsWithLabel y y 0).length = y.countP (· == 0) := by
    rw [length_rowsWithLabel, countP_zip_snd _ _ _ rfl]
  have hymw : (rowsWithLabel y y 1).length = y.countP (· == 1) := by
    rw [length_rowsWithLabel, countP_zip_snd _ _ _ rfl]
  have hby : ∀ i ∈ idxs, i < (rowsWithLabel y y 0).length := by
    intro i hi
    rw [hygw, ← hXgw]
    exact hb i hi
  have hk : idxs.length ≤ (rowsWithLabel X y 0).length := by
    have hsub : idxs.Subperm (List.range (rowsWithLabel X y 0).length) :=
      hnd.subperm fun i hi => List.mem_range.mpr (hb i hi)
    simpa using hsub.length_le
  have hpart := countP_binary_partition y hbin
  rw [hXgw] at hk
  constructor
  · simp only [poisoned_training_set, List.length_append, List.length_map]
    rw [length_deleteRows _ _ hnd hb, length_selectRows _ _ hb, hXgw, hXmw]
    omega
  · simp only [poisoned_training_set, List.length_append, List.length_map]
    rw [length_deleteRows _ _ hnd hby, length_selectRows _ _ hby, hygw, hymw]
    omega

/-- Witness for C4: a three-row training set (one malicious, two benign),
one benign row drawn for poisoning; the reassembled set and labels keep
their three rows. -/
theorem C4_poisoned_training_set_size_witness :
    (poisoned_training_set [10, 20, 30] [1, 0, 0] [1] (fun r => r + 100)).1.length =
      ([10, 20, 30] : List Nat).length ∧
    (poisoned_training_set [10, 20, 30] [1, 0, 0] [1] (fun r => r + 100)).2.length =
      ([1, 0, 0] : List Nat).length :=
  C4_poisoned_training_set_size [10, 20, 30] [1, 0, 0] [1] (fun r => r + 100)
    (by decide) (by decide) (by decide) (by decide)

/-! ## Configuration validation (common_utils.read_config)

The name sets live in mw_backdoor/constants.py, whose text is not among the
sources at hand (only its callers are); they enter the embedding as
parameters, so every statement below holds for any choice of them.  The
config fields are embedded at the Python types the per-element type checks
of the source demand (floats as `Rat`, ints as `Int`), so those type checks
hold by construction in the embedding. -/

/-- The experiment-configuration fields consumed by `read_config` on the
attack path (atk_def = True). -/
structure AttackConfig where
  poison_size : List Rat
  watermark_size : List Int
  target_features : String
  feature_selection : List String
  value_selection : List String
  dataset : String
  iterations : Int

/-- The constant name sets of mw_backdoor.constants referenced by
`read_config`. -/
structure Criteria where
  possible_features_targets : List String
  feature_selection_criteria : List String
  value_selection_criteria : List String
  possible_datasets : List String
  train_sizes : String → Int

/-- Python `int()` applied to a rational: truncation toward zero
(`Int` division in Lean is T-division). -/
def intTrunc (q : Rat) : Int := q.num / (q.den : Int)

/-- `read_config` (common_utils.py lines 13-65, attack path): the checks run
in source order and the first failing one raises ValueError (embedded as
`.error`); on success the poison fractions are converted to absolute counts
with `int(train_size * p)`. -/
def read_config (C : Criteria) (cfg : AttackConfig) : Except String AttackConfig :=
  if cfg.target_features ∉ C.possible_features_targets then
    .error "Invalid feature target"
  else
    match cfg.feature_selection.find?
        (fun i => !(C.feature_selection_criteria.contains i)) with
    | some _ => .error "Invalid feature selection criterion"
    | none =>
      match cfg.value_selection.find?
          (fun i => !(C.value_selection_criteria.contains i)) with
      | some _ => .error "Invalid value selection criterion"
      | none =>
        if cfg.dataset ∉ C.possible_datasets then
          .error "Invalid dataset"
        else
          .ok { cfg with poison_size :=
            cfg.poison_size.map fun p =>
              ((intTrunc ((C.train_sizes cfg.dataset : Rat) * p) : Rat)) }

/-- Observable effects of the attack entry point: backdoor_attack.py's
__main__ calls `read_config` first (line 261) and only afterwards
`run_attacks`, whose body loads features and the dataset (lines 81-91)
before building any selector (lines 140-152). -/
inductive Event
  | datasetLoad
  | selectorBuild
deriving DecidableEq

/-- The effect order of `run_attacks` (backdoor_attack.py lines 59-241):
data loading strictly precedes selector construction. -/
def run_attacks_events : List Event := [Event.datasetLoad, Event.selectorBuild]

/-- The effect trace of backdoor_attack.py's __main__: a ValueError from
`read_config` aborts the script before `run_attacks` begins, so a rejected
configuration produces no effects at all. -/
def main_events (C : Criteria) (cfg : AttackConfig) : List Event :=
  match read_config C cfg with
  | .error _ => []
  | .ok _ => run_attacks_events

theorem read_config_ok_selectors_valid (C : Criteria) (cfg cfg2 : AttackConfig)
    (h : read_config C cfg = .ok cfg2) :
    (∀ f ∈ cfg.feature_selection, f ∈ C.feature_selection_criteria) ∧
    (∀ v ∈ cfg.value_selection, v ∈ C.value_selection_criteria) := by
  unfold read_config at h
  split at h
  · exact Except.noConfusion h
  · split at h
    · exact Except.noConfusion h
    · rename_i hfeat
      split at h
      · exact Except.noConfusion h
      · rename_i hval
        refine ⟨fun f hf => ?_, fun v hv => ?_⟩
        · have := List.find?_eq_none.mp hfeat f hf
          simpa using this
        · have := List.find?_eq_none.mp hval v hv
          simpa using this

/-- C6: a configuration whose feature_selection or value_selection list
contains a name outside the known criteria is rejected by `read_config`
with an error, and the attack entry point then produces no effects at all:
in particular no dataset is loaded and no selector is ever built, so an
unknown strategy name can never fail later at call time. -/
theorem C6_unknown_selector_rejected_at_config_time (C : Criteria)
    (cfg : AttackConfig)
    (hbad : (∃ f ∈ cfg.feature_selection, f ∉ C.feature_selection_criteria) ∨
            (∃ v ∈ cfg.value_selection, v ∉ C.value_selection_criteria)) :
    (∃ e, read_config C cfg = .error e) ∧
    Event.datasetLoad ∉ main_events C cfg ∧
    Event.selectorBuild ∉ main_events C cfg := by
  have herr : ∃ e, read_config C cfg = .error e := by
    cases hrc : read_config C cfg with
    | error e => exact ⟨e, rfl⟩
    | ok cfg2 =>
        have hok := read_config_ok_selectors_valid C cfg cfg2 hrc
        rcases hbad with ⟨f, hf, hnf⟩ | ⟨v, hv, hnv⟩
        · exact absurd (hok.1 f hf) hnf
        · exact absurd (hok.2 v hv) hnv
  rcases herr with ⟨e, he⟩
  refine ⟨⟨e, he⟩, ?_, ?_⟩ <;> simp [main_events, he]

/-- The criteria sets used by the C6 witness. -/
def c6_criteria : Criteria :=
  { possible_features_targets := ["all", "feasible"]
    feature_selection_criteria := ["shap_largest_abs", "combined_shap"]
    value_selection_criteria := ["min_population_new", "combined_shap"]
    possible_datasets := ["ember"]
    train_sizes := fun _ => 600000 }

/-- The configuration with an unknown feature-selection strategy used by the
C6 witness. -/
def c6_config : AttackConfig :=
  { poison_size := [1/100]
    watermark_size := [8]
    target_features := "feasible"
    feature_selection := ["totally_unknown_strategy"]
    value_selection := ["min_population_new"]
    dataset := "ember"
    iterations := 5 }

/-- Witness for C6: the concrete configuration with an unknown
feature-selection name is rejected and produces no dataset-load or
selector-build effect. -/
theorem C6_unknown_selector_rejected_witness :
    (∃ e, read_config c6_criteria c6_config = .error e) ∧
    Event.datasetLoad ∉ main_events c6_criteria c6_config ∧
    Event.selectorBuild ∉ main_events c6_criteria c6_config :=
  C6_unknown_selector_rejected_at_config_time c6_criteria c6_config
    (Or.inl ⟨"totally_unknown_strategy", by decide, by decide⟩)

/-! ## Spectral signature (defense_utils.spectral_sign_github / _paper)

Both variants first column-mean-center the matrix and run `np.linalg.svd`
on it; the SVD is an external LAPACK collaborator, so the top
right-singular vector `v[0]` enters the embedding as the oracle parameter
`v` (for which the SVD contract guarantees unit norm).  The 1×n matrix
`corrs = v @ data.T` has, as the norm of its i-th column, exactly
|⟨v, row_i⟩|, which `np.linalg.norm(corrs, axis=0)` computes; scores and
the 85th-percentile threshold (np.percentile, linear interpolation) are
embedded exactly. -/

/-- Feature matrices: lists of rows. -/
abbrev FeatMat := List (List Rat)

/-- Inner product of two vectors (`np.matmul` of a row with a column). -/
def dotProd (a b : List Rat) : Rat := (List.zipWith (· * ·) a b).sum

/-- Column sums of a matrix. -/
def colSums (m : FeatMat) : List Rat :=
  match m with
  | [] => []
  | r :: rs => rs.foldl (fun acc row => List.zipWith (· + ·) acc row) r

/-- `np.average(data_mat, axis=0)`: the column means. -/
def colMeans (m : FeatMat) : List Rat := (colSums m).map (· / (m.length : Rat))

/-- The column-mean-centered matrix `data_mat - clus_avg`. -/
def centerRows (m : FeatMat) : FeatMat :=
  m.map fun r => List.zipWith (· - ·) r (colMeans m)

/-- `np.percentile(scores, 85)` with the default linear interpolation:
sort ascending, let pos = 0.85·(n−1), and interpolate between the two
adjacent order statistics. -/
def percentile85 (scores : List Rat) : Rat :=
  let s := List.insertionSort (· ≤ ·) scores
  if s.length = 0 then 0
  else
    let pos : Rat := 85 * ((s.length : Rat) - 1) / 100
    let k : Nat := pos.floor.toNat
    match s.get? (k + 1) with
    | some hi => s.getD k 0 + (pos - (k : Rat)) * (hi - s.getD k 0)
    | none => s.getD k 0

/-- `spectral_sign_github` (defense_utils.py lines 408-452): scores are the
column norms of `v @ data_mat.T` (the raw rows), the threshold is the 85th
percentile of the scores, and the returned bitmap marks the indices with
score strictly above the threshold. -/
def spectral_sign_github (data : FeatMat) (v : List Rat) : List Bool :=
  let scores := data.map fun r => |dotProd v r|
  let p := percentile85 scores
  let top := (scores.enum.filter fun q => decide (q.2 > p)).map Prod.fst
  (List.range data.length).map fun i => top.contains i

/-- `spectral_sign_paper` (defense_utils.py lines 455-494): identical except
that the projection is computed on the centered matrix `clus_centered`. -/
def spectral_sign_paper (data : FeatMat) (v : List Rat) : List Bool :=
  let centered := centerRows data
  let scores := centered.map fun r => |dotProd v r|
  let p := percentile85 scores
  let top := (scores.enum.filter fun q => decide (q.2 > p)).map Prod.fst
  (List.range centered.length).map fun i => top.contains i

/-- The outlier computation as the spec words it: each row's anomaly score
is the norm of the row's projection onto the top right-singular vector v —
for a unit vector v the projection ⟨r,v⟩·v has Euclidean norm |⟨r,v⟩| — and
flagged are exactly the rows with score strictly above the 85th percentile
of all scores.  Written from the spec for comparison with the
implementation. -/
def spectral_outlier_flags_spec (rows : FeatMat) (v : List Rat) : List Bool :=
  let scores := rows.map fun r => |dotProd r v|
  let p := percentile85 scores
  scores.map fun sc => decide (sc > p)

theorem dotProd_comm (a b : List Rat) : dotProd a b = dotProd b a := by
  unfold dotProd
  rw [List.zipWith_comm_of_comm _ mul_comm]

theorem bitmap_of_top_indices (scores : List Rat) (f : Rat → Bool) :
    ((List.range scores.length).map fun i =>
      ((scores.enum.filter fun q => f q.2).map Prod.fst).contains i) =
      scores.map f := by
  refine List.ext_getElem (by simp) ?_
  intro i h1 h2
  have hi : i < scores.length := by simpa using h2
  simp only [List.getElem_map, List.getElem_range]
  rw [Bool.eq_iff_iff]
  have hscore : scores[i]? = some scores[i] := List.getElem?_eq_getElem hi
  constructor
  · intro hc
    have hmem : i ∈ (scores.enum.filter fun q => f q.2).map Prod.fst := by
      simpa using hc
    rcases List.mem_map.mp hmem with ⟨q, hqf, hfst⟩
    rcases List.mem_filter.mp hqf with ⟨hqe, hfq⟩
    have hq : (q.1, q.2) ∈ scores.enum := by simpa using hqe
    have hget : scores[q.1]? = some q.2 := List.mk_mem_enum_iff_getElem?.mp hq
    rw [hfst] at hget
    rw [hscore] at hget
    have hqi : q.2 = scores[i] := by
      injection hget.symm
    rw [hqi] at hfq
    exact hfq
  · intro hf
    have hq : (i, scores[i]) ∈ scores.enum :=
      List.mk_mem_enum_iff_getElem?.mpr hscore
    have hmem : i ∈ (scores.enum.filter fun q => f q.2).map Prod.fst :=
      List.mem_map.mpr ⟨(i, scores[i]), List.mem_filter.mpr ⟨hq, hf⟩, rfl⟩
    simpa using hmem

/-- C7: both spectral-signature variants flag exactly the samples whose
anomaly score — the norm of the row's projection onto the (unit) top
right-singular vector v of the centered matrix — lies strictly above the
85th percentile of all scores; the github variant projects the raw rows,
the paper variant the centered rows. -/
theorem C7_spectral_variants_match_spec (data : FeatMat) (v : List Rat) :
    spectral_sign_github data v = spectral_outlier_flags_spec data v ∧
    spectral_sign_paper data v = spectral_outlier_flags_spec (centerRows data) v := by
  have hswap : ∀ rows : FeatMat,
      (rows.map fun r => |dotProd v r|) = rows.map fun r => |dotProd r v| := by
    intro rows
    exact List.map_congr_left fun r _ => by rw [dotProd_comm]
  constructor
  · show (List.range data.length).map _ = _
    have hlen : data.length = (data.map fun r => |dotProd v r|).length := by
      simp
    have hb := bitmap_of_top_indices (data.map fun r => |dotProd v r|)
      fun sc => decide (sc > percentile85 (data.map fun r => |dotProd v r|))
    have h2 : (data.map fun r => |dotProd v r|).map
        (fun sc => decide (sc > percentile85 (data.map fun r => |dotProd v r|))) =
        spectral_outlier_flags_spec data v := by
      rw [hswap data]
      rfl
    rw [hlen]
    exact hb.trans h2
  · show (List.range (centerRows data).length).map _ = _
    have hlen : (centerRows data).length =
        ((centerRows data).map fun r => |dotProd v r|).length := by
      simp
    have hb := bitmap_of_top_indices ((centerRows data).map fun r => |dotProd v r|)
      fun sc => decide (sc > percentile85 ((centerRows data).map fun r => |dotProd v r|))
    have h2 : ((centerRows data).map fun r => |dotProd v r|).map
        (fun sc => decide (sc > percentile85 ((centerRows data).map fun r => |dotProd v r|))) =
        spectral_outlier_flags_spec (centerRows data) v := by
      rw [hswap (centerRows data)]
      rfl
    rw [hlen]
    exact hb.trans h2

/-! ## Trigger persistence round trip
(generate_watermarks.get_watermarks / attack_utils.load_watermark)

The watermark JSON holds an `order` object mapping the decimal-string index
to a feature name (index 0 = the last-selected feature, generate_watermarks
lines 164-168 enumerate the reversed mapping) and a `map` object from
feature name to value.  `load_watermark` (attack_utils.py lines 134-163)
iterates `sorted(ordering.keys())` — Python string sort of the decimal
keys — and collects pairs until the counter hits `wm_size`.  A JSON key is
embedded as its digit list (most significant first); lexicographic
comparison of digit lists is exactly Python string comparison of the keys. -/

/-- Digit-list construction with structural fuel (fuel n + 1 always
suffices). -/
def decReprCore : Nat → Nat → List Nat
  | 0, _ => []
  | fuel + 1, n => if n < 10 then [n] else decReprCore fuel (n / 10) ++ [n % 10]

/-- The decimal-digit list of a natural number, most significant digit
first: the embedding of the JSON object key `str(n)`. -/
def decRepr (n : Nat) : List Nat := decReprCore (n + 1) n

/-- Lexicographic order on digit lists: Python string `<=` restricted to
decimal keys. -/
def lexLe : List Nat → List Nat → Bool
  | [], _ => true
  | _ :: _, [] => false
  | a :: as, b :: bs => if a < b then true else if b < a then false else lexLe as bs

/-- The `order` object built by get_watermarks (generate_watermarks.py
lines 166-167): enumerating from `i`, each entry maps the decimal key to
the feature name of the corresponding (already reversed) trigger entry. -/
def wmOrder : Nat → List (String × Rat) → List (List Nat × String)
  | _, [] => []
  | i, p :: rest => (decRepr i, p.1) :: wmOrder (i + 1) rest

/-- Serialization of a trigger to the `order` object: the trigger is
enumerated in reverse selection order starting at key 0. -/
def serializeOrder (T : List (String × Rat)) : List (List Nat × String) :=
  wmOrder 0 T.reverse

/-- Serialization of a trigger to the `map` object: the feature-to-value
pairs themselves (the object is only ever used for key lookup). -/
def serializeMap (T : List (String × Rat)) : List (String × Rat) := T

/-- Python's `sorted` over the JSON keys: a stable sort by string order,
embedded as insertion sort (any stable sort computes the same list). -/
def sortByKey (l : List (List Nat × String)) : List (List Nat × String) :=
  List.insertionSort (fun a b => lexLe a.1 b.1 = true) l

/-- The truncation done by load_watermark's loop counter: entries are
appended and the loop breaks once the counter equals `wm_size`; with
`wm_size = 0` the test `i == wm_size` never fires and every entry is kept. -/
def loadTrunc (wm_size : Nat) (l : List (List Nat × String)) :
    List (List Nat × String) :=
  if wm_size = 0 then l else l.take wm_size

/-- `load_watermark` (attack_utils.py lines 134-163, name_feat_map = None):
walk the `order` entries in sorted string-key order, look each feature name
up in the `map` object (a missing key raises KeyError, embedded as `none`),
and keep the first `wm_size` pairs in an ordered mapping. -/
def load_watermark (order : List (List Nat × String)) (mp : List (String × Rat))
    (wm_size : Nat) : Option (List (String × Rat)) :=
  (loadTrunc wm_size (sortByKey order)).mapM fun q =>
    (mp.lookup q.2).map fun v => (q.2, v)

theorem decRepr_single (i : Nat) (h : i ≤ 9) : decRepr i = [i] := by
  unfold decRepr
  rw [decReprCore]
  rw [if_pos (by omega)]

theorem length_wmOrder (l : List (String × Rat)) (i : Nat) :
    (wmOrder i l).length = l.length := by
  induction l generalizing i with
  | nil => rfl
  | cons x l ih => simpa [wmOrder] using ih (i + 1)

theorem mem_wmOrder (l : List (String × Rat)) (i : Nat) (q : List Nat × String)
    (h : q ∈ wmOrder i l) : ∃ j, i ≤ j ∧ j < i + l.length ∧ q.1 = decRepr j := by
  induction l generalizing i with
  | nil => cases h
  | cons x l ih =>
      rcases List.mem_cons.mp h with rfl | htl
      · exact ⟨i, Nat.le_refl i, by simp, rfl⟩
      · rcases ih (i + 1) htl with ⟨j, hj1, hj2, hj3⟩
        refine ⟨j, by omega, ?_, hj3⟩
        simp only [List.length_cons]
        omega

theorem lexLe_decRepr (i j : Nat) (hi : i ≤ 9) (hj : j ≤ 9) (hij : i ≤ j) :
    lexLe (decRepr i) (decRepr j) = true := by
  rw [decRepr_single i hi, decRepr_single j hj]
  rw [lexLe]
  rcases Nat.lt_or_ge i j with h | h
  · rw [if_pos h]
  · have hij2 : i = j := Nat.le_antisymm hij h
    subst hij2
    rw [if_neg (by omega), if_neg (by omega)]
    rfl

theorem sorted_wmOrder (l : List (String × Rat)) (i : Nat)
    (hle : i + l.length ≤ 10) :
    List.Sorted (fun a b : List Nat × String => lexLe a.1 b.1 = true)
      (wmOrder i l) := by
  induction l generalizing i with
  | nil => exact List.sorted_nil
  | cons x l ih =>
      have hlen : i + l.length + 1 ≤ 10 := by
        simpa [Nat.add_assoc, Nat.add_comm, Nat.add_left_comm] using hle
      rw [wmOrder]
      refine List.sorted_cons.mpr ⟨?_, ih (i + 1) (by omega)⟩
      intro q hq
      rcases mem_wmOrder l (i + 1) q hq with ⟨j, hj1, hj2, hj3⟩
      show lexLe (decRepr i) q.1 = true
      rw [hj3]
      exact lexLe_decRepr i j (by omega) (by omega) (by omega)

theorem lookup_of_mem_nodup (mp : List (String × Rat)) (a : String) (b : Rat)
    (hnd : (mp.map Prod.fst).Nodup) (hmem : (a, b) ∈ mp) :
    mp.lookup a = some b := by
  induction mp with
  | nil => cases hmem
  | cons x rest ih =>
      rcases x with ⟨xk, xv⟩
      have hnd2 : (∀ v : Rat, (xk, v) ∉ rest) ∧ (rest.map Prod.fst).Nodup := by
        simpa using hnd
      by_cases hax : a = xk
      · subst hax
        rcases List.mem_cons.mp hmem with heq | htl
        · injection heq with h1 h2
          simp [List.lookup, h2]
        · exact absurd htl (hnd2.1 b)
      · have htl : (a, b) ∈ rest := by
          rcases List.mem_cons.mp hmem with heq | htl
          · exact absurd (congrArg Prod.fst heq) hax
          · exact htl
        have hbeq : (a == xk) = false := beq_eq_false_iff_ne.mpr hax
        simp [List.lookup, hbeq, ih hnd2.2 htl]

theorem mapM_wmOrder (mp : List (String × Rat)) (l : List (String × Rat)) (i : Nat)
    (hl : ∀ p ∈ l, mp.lookup p.1 = some p.2) :
    ((wmOrder i l).mapM fun q => (mp.lookup q.2).map fun v => (q.2, v)) =
      some l := by
  induction l generalizing i with
  | nil => rfl
  | cons x l ih =>
      have hx := hl x (List.mem_cons_self x l)
      have htl := ih (i + 1) fun p hp => hl p (List.mem_cons_of_mem x hp)
      rw [wmOrder]
      rw [List.mapM_cons]
      simp only [hx, htl, Option.map_some, Option.bind_some, Option.bind_eq_bind]
      rfl

/-- C2 counterexample: serializing the two-feature trigger a↦1, b↦2 and
reloading it at wm_size = 2 yields the ordered mapping b↦2, a↦1 — the
reverse of the original — because loading walks the `order` keys starting
from index 0, the last-selected feature.  The claimed identity round trip
fails. -/
theorem C2_roundtrip_counterexample :
    load_watermark (serializeOrder [("a", 1), ("b", 2)])
        (serializeMap [("a", 1), ("b", 2)]) 2 = some [("b", 2), ("a", 1)] ∧
    some [("b", 2), ("a", 1)] ≠ some [("a", 1), ("b", 2)] := by
  constructor
  · rfl
  · intro h
    injection h with h2
    injection h2 with h3
    injection h3 with h4
    exact absurd h4 (by decide)

/-- C2 (amended): for every trigger with distinct feature names, at most 10
entries, and wm_size equal to its cardinality, serializing to the JSON
format and reloading with load_watermark yields the same feature-to-value
pairs but in reverse selection order (the reloaded mapping starts with the
last-selected feature); for more than 10 entries the traversal follows the
lexicographic string sort of the decimal keys rather than numeric order. -/
theorem C2_roundtrip_is_reversed (T : List (String × Rat))
    (hnd : (T.map Prod.fst).Nodup) (hsize : T.length ≤ 10) :
    load_watermark (serializeOrder T) (serializeMap T) T.length =
      some T.reverse := by
  by_cases h0 : T.length = 0
  · have hT : T = [] := List.length_eq_zero.mp h0
    subst hT
    rfl
  · have hlook : ∀ p ∈ T.reverse, List.lookup p.1 T = some p.2 := by
      intro p hp
      have hmem : p ∈ T := List.mem_reverse.mp hp
      exact lookup_of_mem_nodup T p.1 p.2 hnd hmem
    have hsorted : sortByKey (wmOrder 0 T.reverse) = wmOrder 0 T.reverse :=
      List.Sorted.insertionSort_eq
        (sorted_wmOrder T.reverse 0 (by simpa using hsize))
    have hlen : (wmOrder 0 T.reverse).length = T.length := by
      rw [length_wmOrder, List.length_reverse]
    have htrunc : loadTrunc T.length (wmOrder 0 T.reverse) =
        wmOrder 0 T.reverse := by
      unfold loadTrunc
      rw [if_neg h0, ← hlen, List.take_length]
    show (loadTrunc T.length (sortByKey (wmOrder 0 T.reverse))).mapM _ = _
    rw [hsorted, htrunc]
    exact mapM_wmOrder T T.reverse 0 hlook

/-- Witness for C2: the amended reversed round trip evaluated on the
concrete two-feature trigger a↦1, b↦2. -/
theorem C2_roundtrip_is_reversed_witness :
    load_watermark (serializeOrder [("a", 1), ("b", 2)])
        (serializeMap [("a", 1), ("b", 2)]) 2 =
      some ([("a", 1), ("b", 2)] : List (String × Rat)).reverse :=
  C2_roundtrip_is_reversed [("a", 1), ("b", 2)] (by decide) (by decide)

/-! ## Frame property of one attack iteration
(attack_utils.run_watermark_attack, called from run_experiments)

What decides this claim is which numpy operations copy and which alias:
boolean-mask selection (`X[y == 0]`, lines 640-644), `np.delete`
(line 662), integer-array (fancy) indexing (`X[idxs]`, line 665) and
`copy.deepcopy` (lines 476, 541) allocate fresh arrays, while scalar row
indexing (`X[i]`, lines 672, 732) returns a view whose element assignment
writes through to the parent array.  The embedding makes aliasing explicit
with a store of arrays addressed by references: the clean partitions live
at dedicated addresses, each copying operation allocates a fresh address,
and every in-place row write of the source targets the address the source
actually writes through.  The frame claim is then the statement that the
final store holds the clean partitions unchanged. -/

/-- Addresses of the arrays alive during one experiment iteration. -/
inductive ArrRef
  | xtrain
  | origtest
  | cand
  | fresh (n : Nat)
deriving DecidableEq

/-- The store: the clean training matrix, the clean original test matrix
and the clean poisoning-candidate matrix at their own addresses, plus the
arrays allocated during the iteration. -/
structure Store where
  xtrain : FeatMat
  origtest : FeatMat
  cand : FeatMat
  heap : List FeatMat

/-- Read an array from the store. -/
def Store.read (s : Store) : ArrRef → FeatMat
  | .xtrain => s.xtrain
  | .origtest => s.origtest
  | .cand => s.cand
  | .fresh n => s.heap.getD n []

/-- Overwrite an array in place (the effect of writing through a row
view). -/
def Store.write (s : Store) : ArrRef → FeatMat → Store
  | .xtrain, m => { s with xtrain := m }
  | .origtest, m => { s with origtest := m }
  | .cand, m => { s with cand := m }
  | .fresh n, m => { s with heap := s.heap.set n m }

/-- Allocate a fresh array (the effect of a copying numpy operation). -/
def Store.alloc (s : Store) (m : FeatMat) : Store × ArrRef :=
  ({ s with heap := s.heap ++ [m] }, ArrRef.fresh s.heap.length)

/-- In-place mutation of the rows at the listed (distinct) indices: the
watermarking loops at attack_utils.py lines 671-683 and 727-738 and
run_experiments lines 546-558. -/
def mutateRows (m : FeatMat) (idxs : List Nat) (mutate : List Rat → List Rat) :
    FeatMat :=
  m.enum.map fun p => if p.1 ∈ idxs then mutate p.2 else p.2

/-- The array operations of `run_watermark_attack` (attack_utils.py lines
640-748) in source order, acting on the store.  `testArr` is the address of
the all-malicious test array the caller passes (X_orig_mw_only_test),
`ytrain` the training labels, `gwIdxs`/`mwIdxs` the drawn index lists, and
`mutate` the row-level watermark application.  Returns the final store
together with (X_train_watermarked, X_test_mw). -/
def run_watermark_attack_store (s : Store) (testArr : ArrRef)
    (ytrain : List Nat) (gwIdxs mwIdxs : List Nat)
    (mutate : List Rat → List Rat) : Store × (FeatMat × FeatMat) :=
  let a1 := s.alloc (rowsWithLabel (s.read ArrRef.xtrain) ytrain 0)
  let s := a1.1
  let gwRef := a1.2
  let a2 := s.alloc (rowsWithLabel (s.read ArrRef.xtrain) ytrain 1)
  let s := a2.1
  let mwRef := a2.2
  let a3 := s.alloc (s.read testArr)
  let s := a3.1
  let testmwRef := a3.2
  let a4 := s.alloc (deleteRows (s.read gwRef) gwIdxs)
  let s := a4.1
  let noRef := a4.2
  let a5 := s.alloc (selectRows (s.read gwRef) gwIdxs)
  let s := a5.1
  let wmRef := a5.2
  let s := s.write wmRef ((s.read wmRef).map mutate)
  let a6 := s.alloc (s.read mwRef ++ s.read noRef ++ s.read wmRef)
  let s := a6.1
  let trainRef := a6.2
  let s := s.write testmwRef (mutateRows (s.read testmwRef) mwIdxs mutate)
  let newTest := selectRows (s.read testmwRef) mwIdxs
  (s, (s.read trainRef, newTest))

/-- Indices of the rows with label 1 (the malicious test rows watermarked
by run_experiments at lines 546-558). -/
def labelOneIdxs (y : List Nat) : List Nat :=
  (y.enum.filter fun p => p.2 == 1).map Prod.fst

/-- One iteration of `run_experiments` (attack_utils.py lines 452-609) as a
store program, starting from an empty heap holding only the clean arrays:
X_temp = deepcopy of the candidate set (line 476) is allocated fresh, the
attack runs against the copy, then X_orig_wm_test = deepcopy of the
original test set (line 541) is allocated fresh and its malicious rows are
watermarked in place on the copy. -/
def run_experiments_iteration_store (xt ot cd : FeatMat)
    (ytrain yorigtest : List Nat) (gwIdxs mwIdxs : List Nat)
    (mutate : List Rat → List Rat) : Store × (FeatMat × FeatMat × FeatMat) :=
  let s : Store := ⟨xt, ot, cd, []⟩
  let a1 := s.alloc (s.read ArrRef.cand)
  let s := a1.1
  let tempRef := a1.2
  let r := run_watermark_attack_store s tempRef ytrain gwIdxs mwIdxs mutate
  let s := r.1
  let a2 := s.alloc (s.read ArrRef.origtest)
  let s := a2.1
  let wmTestRef := a2.2
  let s := s.write wmTestRef
    (mutateRows (s.read wmTestRef) (labelOneIdxs yorigtest) mutate)
  (s, (r.2.1, r.2.2, s.read wmTestRef))

/-- C5: one full watermark-attack iteration never mutates the clean input
partitions: after the iteration the store holds X_train, the clean original
test set and the clean candidate set element-wise unchanged; moreover the
poisoned training set it hands back is exactly the freshly assembled
`poisoned_training_set` of the clean inputs — a new array, never written
back to a clean address. -/
theorem C5_clean_partitions_unchanged (xt ot cd : FeatMat)
    (ytrain yorigtest : List Nat) (gwIdxs mwIdxs : List Nat)
    (mutate : List Rat → List Rat) :
    (run_experiments_iteration_store xt ot cd ytrain yorigtest gwIdxs mwIdxs
        mutate).1.xtrain = xt ∧
    (run_experiments_iteration_store xt ot cd ytrain yorigtest gwIdxs mwIdxs
        mutate).1.origtest = ot ∧
    (run_experiments_iteration_store xt ot cd ytrain yorigtest gwIdxs mwIdxs
        mutate).1.cand = cd ∧
    (run_experiments_iteration_store xt ot cd ytrain yorigtest gwIdxs mwIdxs
        mutate).2.1 = (poisoned_training_set xt ytrain gwIdxs mutate).1 := by
  refine ⟨rfl, rfl, rfl, rfl⟩

end MwBackdoor
